import Mathlib

/-!
Shallow embedding of the BitDrift torrent engine (files under
`src/torrent/src/`) together with theorems settling the frozen claims.

Conventions of the embedding:
* Rust byte buffers (`BytesMut`, `Vec<u8>`, `&[u8]`) are `List Nat`
  whose elements are byte values; Rust `u32`/`usize` arithmetic is `Nat`
  with explicit `% 2^32` where a cast truncates.
* `bitvec::BitVec<u8, Msb0>` (`types::BitField`) is `List Bool`, the head
  of the list being the most-significant bit of the first byte.
* fallible Rust paths return dedicated result inductives; a slice-index
  panic in the source is a dedicated `panic`-style constructor.
-/

namespace BitDrift

/-- Big-endian bytes of a `u32` value, as written by `BufMut::put_u32`.
The `/ 2^k % 256` projections coincide with the Rust `as u32` truncating
cast for every `Nat` input. -/
def u32BeBytes (n : Nat) : List Nat :=
  [n / 2 ^ 24 % 256, n / 2 ^ 16 % 256, n / 2 ^ 8 % 256, n % 256]

/-- Big-endian `u32` read (`Buf::get_u32`) from four byte values. -/
def beU32 (b0 b1 b2 b3 : Nat) : Nat :=
  ((b0 * 256 + b1) * 256 + b2) * 256 + b3

/-- Bits of one byte, most significant first (`Msb0` order). -/
def byteToBits (b : Nat) : List Bool :=
  (List.range 8).map (fun i => b / 2 ^ (7 - i) % 2 = 1)

/-- `BitField::from_vec`: reinterpret raw bytes as a bitfield; the result
always holds a multiple of eight bits. -/
def BitField.fromVec (bytes : List Nat) : List Bool :=
  bytes.flatMap byteToBits

/-- Value of a list of at most eight Msb0 bits, the head being the MSB. -/
def bitsToByte (bits : List Bool) : Nat :=
  bits.foldl (fun acc b => acc * 2 + (if b then 1 else 0)) 0

/-- `BitVec::as_raw_slice`: the underlying bytes of an Msb0 bitfield,
taken eight bits at a time; unused low-order bits of the final byte are
zero. -/
def BitField.asRawSlice : List Bool → List Nat
  | [] => []
  | b0 :: b1 :: b2 :: b3 :: b4 :: b5 :: b6 :: b7 :: rest =>
    bitsToByte [b0, b1, b2, b3, b4, b5, b6, b7] :: BitField.asRawSlice rest
  | bits => [bitsToByte (bits ++ List.replicate (8 - bits.length) false)]

/-- The wire messages of `message.rs` (`enum Message`). -/
inductive Message where
  | keepAlive
  | choke
  | unchoke
  | interested
  | notInterested
  | have' (piece_index : Nat)
  | bitfield (bitfield : List Bool)
  | request (piece_index begin' length : Nat)
  | piece (piece_index begin' : Nat) (piece : List Nat)
  | cancel (piece_index begin' length : Nat)
deriving DecidableEq, Repr

/-- `Message::message_length` of `message.rs`: note that for `Bitfield`
the source adds `bitfield.len()`, which for a `bitvec` vector is the
number of BITS. -/
def Message.message_length : Message → Nat
  | .keepAlive => 0
  | .choke | .unchoke | .interested | .notInterested => 1
  | .have' _ => 5
  | .bitfield bits => 1 + bits.length
  | .request _ _ _ => 13
  | .piece _ _ p => 9 + p.length
  | .cancel _ _ _ => 13

/-- `Message::message_id` of `message.rs`, as the `u8` discriminant. -/
def Message.message_id : Message → Option Nat
  | .keepAlive => none
  | .choke => some 0
  | .unchoke => some 1
  | .interested => some 2
  | .notInterested => some 3
  | .have' _ => some 4
  | .bitfield _ => some 5
  | .request _ _ _ => some 6
  | .piece _ _ _ => some 7
  | .cancel _ _ _ => some 8

/-- `Message::payload` of `message.rs`; the `Bitfield` payload is the raw
byte slice of the bitfield. -/
def Message.payload : Message → Option (List Nat)
  | .keepAlive => none
  | .choke | .unchoke | .interested | .notInterested => none
  | .have' pi => some (u32BeBytes pi)
  | .bitfield bits => some (BitField.asRawSlice bits)
  | .request pi b l => some (u32BeBytes pi ++ u32BeBytes b ++ u32BeBytes l)
  | .piece pi b p => some (u32BeBytes pi ++ u32BeBytes b ++ p)
  | .cancel pi b l => some (u32BeBytes pi ++ u32BeBytes b ++ u32BeBytes l)

/-- `MessageCodec::encode`: length prefix, then optional id byte, then
optional payload. -/
def MessageCodec.encode (m : Message) : List Nat :=
  u32BeBytes m.message_length
    ++ (match m.message_id with | some id => [id] | none => [])
    ++ (match m.payload with | some p => p | none => [])

/-- Result of `MessageCodec::decode`: `waiting` is `Ok(None)` (buffer not
yet complete), `msg` is `Ok(Some(_))`, `invalidData` the `io::Error` for
an unknown id, and `shortRead` a `Buf` panic on an exhausted buffer. -/
inductive MsgDecode where
  | waiting
  | msg (m : Message)
  | invalidData
  | shortRead
deriving DecidableEq, Repr

/-- Read a big-endian `u32` from the front of a buffer (`Buf::get_u32`),
returning the value and the remaining bytes. -/
def readU32 : List Nat → Option (Nat × List Nat)
  | b0 :: b1 :: b2 :: b3 :: rest => some (beU32 b0 b1 b2 b3, rest)
  | _ => none

/-- `MessageCodec::decode` of `message.rs`. The four-byte length prefix is
peeked, the guard `src.len() < 4 + length` yields `Ok(None)`, and the
message id selects the arm. (The source's `length - 1` and `length - 9`
are `usize` subtractions; every input reached in the theorems below keeps
them non-negative, where `Nat` subtraction agrees.) -/
def MessageCodec.decode (src : List Nat) : MsgDecode :=
  match src with
  | b0 :: b1 :: b2 :: b3 :: rest =>
    let length := beU32 b0 b1 b2 b3
    if src.length < 4 + length then .waiting
    else if length = 0 then .msg .keepAlive
    else
      match rest with
      | [] => .shortRead
      | idByte :: rest2 =>
        if idByte = 0 then .msg .choke
        else if idByte = 1 then .msg .unchoke
        else if idByte = 2 then .msg .interested
        else if idByte = 3 then .msg .notInterested
        else if idByte = 4 then
          match readU32 rest2 with
          | some (pi, _) => .msg (.have' pi)
          | none => .shortRead
        else if idByte = 5 then
          .msg (.bitfield (BitField.fromVec (rest2.take (length - 1))))
        else if idByte = 6 then
          match readU32 rest2 with
          | some (pi, r3) =>
            match readU32 r3 with
            | some (b, r4) =>
              match readU32 r4 with
              | some (l, _) => .msg (.request pi b l)
              | none => .shortRead
            | none => .shortRead
          | none => .shortRead
        else if idByte = 7 then
          match readU32 rest2 with
          | some (pi, r3) =>
            match readU32 r3 with
            | some (b, r4) => .msg (.piece pi b (r4.take (length - 9)))
            | none => .shortRead
          | none => .shortRead
        else if idByte = 8 then
          match readU32 rest2 with
          | some (pi, r3) =>
            match readU32 r3 with
            | some (b, r4) =>
              match readU32 r4 with
              | some (l, _) => .msg (.cancel pi b l)
              | none => .shortRead
            | none => .shortRead
          | none => .shortRead
        else .invalidData
  | _ => .waiting

/-- Byte values of the string `"BitTorrent protocol"`. -/
def protocolString : List Nat :=
  [66, 105, 116, 84, 111, 114, 114, 101, 110, 116, 32,
   112, 114, 111, 116, 111, 99, 111, 108]

/-- `HandShakeCodec::encode`: pstrlen 19, protocol string, eight reserved
zero bytes, the info hash, the peer id. -/
def HandShakeCodec.encode (info_hash peer_id : List Nat) : List Nat :=
  19 :: protocolString ++ List.replicate 8 0 ++ info_hash ++ peer_id

/-- Result of `HandShakeCodec::decode`: `waiting` is `Ok(None)`,
`invalidProtocol` the `io::Error`, `msg` carries the two decoded
20-byte fields. -/
inductive HSDecode where
  | waiting
  | msg (info_hash peer_id : List Nat)
  | invalidProtocol
deriving DecidableEq, Repr

/-- `HandShakeCodec::decode` of `message.rs`. `get_u8` consumes the first
byte; `starts_with` (rendered as a `take`-and-compare) does NOT consume;
the source then advances only the eight reserved bytes before copying the
two 20-byte fields. -/
def HandShakeCodec.decode (src : List Nat) : HSDecode :=
  if src.length < 68 then .waiting
  else
    match src with
    | [] => .waiting
    | b :: rest =>
      if b ≠ 19 ∨ ¬ rest.take protocolString.length = protocolString then
        .invalidProtocol
      else
        let r2 := rest.drop 8
        .msg (r2.take 20) ((r2.drop 20).take 20)

/-- Errors of `piece.rs` (`enum PieceError`). -/
inductive PieceError where
  | invalidHash
  | incompleteBlocks
  | invalidBlock
deriving DecidableEq, Repr

/-- A received block (`piece.rs` `struct Block`). -/
structure Block where
  piece_index : Nat
  begin' : Nat
  data : List Nat
deriving DecidableEq, Repr

/-- Status of a piece (`piece.rs` `enum PieceStatus`). -/
inductive PieceStatus where
  | verified (data : List Nat)
  | unVerified (blocks : List Block)
deriving DecidableEq, Repr

/-- A piece under assembly (`piece.rs` `struct Piece`; the source also
declares an unused `data` field that its constructors never fill). -/
structure Piece where
  index : Nat
  hash : List Nat
  status : PieceStatus
  length : Nat
deriving DecidableEq, Repr

/-- `Piece::is_all_blocks_received` of `piece.rs`. The source computes
`self.length as usize - received` in `usize`; inputs in this file keep
that subtraction non-negative, where `Nat` subtraction agrees. -/
def Piece.is_all_blocks_received (p : Piece) : Bool :=
  match p.status with
  | .verified _ => true
  | .unVerified blocks =>
    let received := (blocks.map (fun b => b.data.length)).sum
    let diff := p.length - received
    match blocks.head? with
    | some b => diff < b.data.length
    | none => false

/-- Write `src` into `buf` at offset `begin'`
(`data[begin..begin + len].copy_from_slice(&block.data)`); `none` models
the slice-index panic raised when the range exceeds the buffer length. -/
def writeCopy (buf : List Nat) (begin' : Nat) (src : List Nat) :
    Option (List Nat) :=
  if begin' + src.length ≤ buf.length then
    some (buf.take begin' ++ src ++ buf.drop (begin' + src.length))
  else none

/-- Outcome of `Piece::verify`: `panics` models an index-out-of-range
abort inside the assembly loop. -/
inductive VerifyResult where
  | ok (data : List Nat) (p : Piece)
  | err (e : PieceError) (p : Piece)
  | panics
deriving DecidableEq, Repr

/-- Assembly loop of `Piece::verify`: fold the blocks over the buffer,
aborting at the first out-of-range write. -/
def assembleBlocks (buf : List Nat) : List Block → Option (List Nat)
  | [] => some buf
  | b :: rest =>
    match writeCopy buf b.begin' b.data with
    | some buf' => assembleBlocks buf' rest
    | none => none

/-- `Piece::verify` of `piece.rs`, parametrised by the SHA-1 function of
the external `sha1` crate. The assembly buffer is
`BytesMut::with_capacity(received_pieces_length)`, whose LENGTH is zero:
it is embedded as the empty list. (In the already-verified arm the source
writes `Ok(())`, which does not even type-check against
`Result<Vec<u8>>`; it is rendered as returning the stored data.) -/
def Piece.verify (sha1 : List Nat → List Nat) (p : Piece) : VerifyResult :=
  match p.status with
  | .verified data => .ok data p
  | .unVerified blocks =>
    if ¬ p.is_all_blocks_received then .err .incompleteBlocks p
    else
      match assembleBlocks [] blocks with
      | none => .panics
      | some data =>
        if p.hash = sha1 data then
          .ok data { p with status := .verified data }
        else .err .invalidHash p

/-- BLOCK_SIZE of `piece_picker.rs` (16 KiB). -/
def BLOCK_SIZE : Nat := 16 * 1024

/-- Request state of a block (`piece_picker.rs` `enum BlockState`). -/
inductive BlockState where
  | notRequested
  | requested
  | received
deriving DecidableEq, Repr

/-- A block to fetch (`piece_picker.rs` `struct BlockInfo`). -/
structure BlockInfo where
  piece_index : Nat
  begin' : Nat
  length : Nat
  state : BlockState
deriving DecidableEq, Repr

/-- `BlockInfo::new`: state starts at `NotRequested`. -/
def BlockInfo.new (piece_index begin' length : Nat) : BlockInfo :=
  ⟨piece_index, begin', length, .notRequested⟩

/-- `BlockInfo::is_same_block`: compare the `(piece_index, begin, length)`
triple. -/
def BlockInfo.is_same_block (a b : BlockInfo) : Bool :=
  a.piece_index = b.piece_index ∧ a.begin' = b.begin' ∧ a.length = b.length

/-- `PiecePicker::block_size` of `piece_picker.rs`: the last block of the
last piece gets `total_length % BLOCK_SIZE` (even when that remainder is
zero); every other block gets BLOCK_SIZE. -/
def PiecePicker.block_size (ownLen piece_length total_length piece_index
    block_index : Nat) : Nat :=
  let is_last_piece := ownLen = piece_index + 1
  let is_last_block := block_index * BLOCK_SIZE + BLOCK_SIZE ≥ piece_length
  if is_last_piece ∧ is_last_block then total_length % BLOCK_SIZE
  else BLOCK_SIZE

/-- The picker state (`piece_picker.rs` `struct PiecePicker`). -/
structure PiecePicker where
  own_bitfield : List Bool
  total_length : Nat
  piece_length : Nat
  missing_blocks : List BlockInfo
deriving Repr

/-- Blocks generated for one not-yet-owned piece inside
`PiecePicker::new`: `piece_length / BLOCK_SIZE` of them (`u32` floor
division), at offsets `i * BLOCK_SIZE`. -/
def PiecePicker.blocksForPiece (ownLen total_length piece_length
    piece_index : Nat) : List BlockInfo :=
  (List.range (piece_length / BLOCK_SIZE)).map fun i =>
    BlockInfo.new piece_index (i * BLOCK_SIZE)
      (PiecePicker.block_size ownLen piece_length total_length piece_index i)

/-- `PiecePicker::new` of `piece_picker.rs`: enumerate the unset bits of
the owner bitfield and emit their blocks in piece order. -/
def PiecePicker.new (own_bitfield : List Bool) (total_length piece_length :
    Nat) : PiecePicker :=
  { own_bitfield := own_bitfield
    total_length := total_length
    piece_length := piece_length
    missing_blocks :=
      (own_bitfield.enum.filter (fun p => p.2 = false)).flatMap fun p =>
        PiecePicker.blocksForPiece own_bitfield.length total_length
          piece_length p.1 }

/-- Connection state of one remote peer (`peer_connection.rs`
`struct PeerConnection`); `tokio::time::Instant` timestamps are `Nat`. -/
structure PeerConnection where
  peer_bitfield : List Bool
  is_choked : Bool
  is_interesting : Bool
  is_peer_choked : Bool
  is_peer_interesting : Bool
  last_unchoked_at : Option Nat
deriving DecidableEq, Repr

/-- `PeerConnection::new`: `BitField::with_capacity(len)` allocates an
EMPTY bitvec, so the stored bitfield starts with zero bits regardless of
the argument. -/
def PeerConnection.new (_bitfield_len : Nat) : PeerConnection :=
  { peer_bitfield := []
    is_choked := true
    is_interesting := false
    is_peer_choked := true
    is_peer_interesting := false
    last_unchoked_at := none }

/-- Rust `Option<Instant>::cmp`: `None` is less than every `Some`. -/
def cmpOptNat : Option Nat → Option Nat → Ordering
  | none, none => .eq
  | none, some _ => .lt
  | some _, none => .gt
  | some a, some b => compare a b

/-- `Choker::unchoke_compare_round_robin` of `choker.rs`: interested
peers first, then older (or absent) `last_unchoked_at` first. -/
def Choker.unchoke_compare_round_robin (a b : PeerConnection) : Ordering :=
  match a.is_peer_interesting, b.is_peer_interesting with
  | true, false => .lt
  | false, true => .gt
  | _, _ => cmpOptNat a.last_unchoked_at b.last_unchoked_at

/-- Effective slot count returned by `Choker::sort_by_unchoke`:
`min(self.upload_slot, peers.len())`. -/
def Choker.sort_by_unchoke_ret (upload_slot : Nat)
    (peers : List PeerConnection) : Nat :=
  min upload_slot peers.length

/-- Default element used to read a peer list positionally. -/
def dfltPeer : PeerConnection := PeerConnection.new 0

/-- Documented postcondition of Rust's
`slice::select_nth_unstable_by(k, cmp)`, the whole effect of
`Choker::sort_by_unchoke` on the peer vector: the output is a permutation
of the input, the element at index `k` is in its sorted position, every
earlier element compares `≤` to it and every later element compares `≥`
to it; any reordering beyond that is unspecified, so the embedding is the
relation of all permitted outputs. -/
def SelectNthPost (k : Nat) (l out : List PeerConnection) : Prop :=
  out.Perm l ∧
  (∀ i ∈ List.range k,
    Choker.unchoke_compare_round_robin (out.getD i dfltPeer)
      (out.getD k dfltPeer) ≠ .gt) ∧
  (∀ j ∈ List.range out.length, k < j →
    Choker.unchoke_compare_round_robin (out.getD k dfltPeer)
      (out.getD j dfltPeer) ≠ .gt)

/-- Relation of the permitted outcomes of `Choker::sort_by_unchoke`:
`select_nth_unstable_by` is called at index `min(upload_slot, n) - 1`. -/
def Choker.sort_by_unchoke_rel (upload_slot : Nat)
    (peers out : List PeerConnection) : Prop :=
  SelectNthPost (min upload_slot peers.length - 1) peers out

/-- Abort condition of `Choker::sort_by_unchoke`: `upload_slot - 1` is
computed in `usize`, so `min(upload_slot, n) = 0` underflows (or, seen
after wrapping, indexes out of bounds), and `select_nth_unstable_by`
also aborts whenever its index reaches the slice length. -/
def Choker.sort_by_unchoke_aborts (upload_slot : Nat)
    (peers : List PeerConnection) : Prop :=
  min upload_slot peers.length = 0 ∨
    ¬ min upload_slot peers.length - 1 < peers.length

/-- Ordering property claimed for the prefix: the interested peers of the
first `m` positions carry non-decreasing `last_unchoked_at` timestamps,
`None` counting as earliest. -/
def chokerClaimPrefixOrdered (m : Nat) (out : List PeerConnection) : Prop :=
  ((out.take m).filter (fun p => p.is_peer_interesting)).Pairwise
    (fun a b => cmpOptNat a.last_unchoked_at b.last_unchoked_at ≠ .gt)

/-- Rolling throughput log (`peer_stats.rs` `struct ThroughputRate`);
`Instant` timestamps are `Nat` seconds, entries are `(timestamp, bytes)`. -/
structure ThroughputRate where
  log : List (Nat × Nat)
  window : Nat
deriving DecidableEq, Repr

/-- `ThroughputRate::new` with a window of `window_secs` seconds. -/
def ThroughputRate.new (window_secs : Nat) : ThroughputRate :=
  ⟨[], window_secs⟩

/-- Front-eviction loop of `ThroughputRate::cleanup_log`: pop entries
whose age exceeds the window, stop at the first young entry. -/
def dropOldEntries (now window : Nat) : List (Nat × Nat) → List (Nat × Nat)
  | [] => []
  | (t, b) :: rest =>
    if now - t > window then dropOldEntries now window rest
    else (t, b) :: rest

/-- `ThroughputRate::cleanup_log`, with the query instant explicit. -/
def ThroughputRate.cleanup_log (now : Nat) (r : ThroughputRate) :
    ThroughputRate :=
  ⟨dropOldEntries now r.window r.log, r.window⟩

/-- `ThroughputRate::record`: append the entry, then clean up. The
recording instant is explicit; `rate` takes none, because the source
performs no eviction on query. -/
def ThroughputRate.record (now bytes : Nat) (r : ThroughputRate) :
    ThroughputRate :=
  ThroughputRate.cleanup_log now ⟨r.log ++ [(now, bytes)], r.window⟩

/-- `ThroughputRate::rate`: sum of all logged bytes over the window
seconds, as an exact rational standing for the `f64` quotient. -/
def ThroughputRate.rate (r : ThroughputRate) : ℚ :=
  ((r.log.map (fun e => e.2)).sum : ℚ) / (r.window : ℚ)

/-- Session context flags of `peer.rs` (`struct SessionContext`). -/
structure SessionContext where
  is_choked : Bool
  is_interested : Bool
  is_peer_choked : Bool
  is_peer_interested : Bool
deriving DecidableEq, Repr

/-- Message-phase peer session of `peer.rs` (`struct ActiveSession`);
`stats` is kept as the list of recorded download sizes. -/
structure ActiveSession where
  is_bitfield_exchanged : Bool
  ctx : SessionContext
  bitfield : Option (List Bool)
  downloadRecords : List Nat
deriving DecidableEq, Repr

/-- `ActiveSession::new` of `peer.rs`. -/
def ActiveSession.new : ActiveSession :=
  { is_bitfield_exchanged := false
    ctx := { is_choked := true, is_interested := false,
             is_peer_choked := true, is_peer_interested := false }
    bitfield := none
    downloadRecords := [] }

/-- `enum PeerError` of `peer.rs` (only an Io variant). -/
inductive PeerError where
  | io
deriving DecidableEq, Repr

/-- `ActiveSession::on_message` of `peer.rs`. Every arm of the source
returns `Ok(())`; a second `Bitfield` only logs a warning. -/
def ActiveSession.on_message (s : ActiveSession) (m : Message) :
    Except PeerError ActiveSession :=
  match m with
  | .keepAlive => .ok s
  | .choke => .ok { s with ctx := { s.ctx with is_peer_choked := true } }
  | .unchoke => .ok { s with ctx := { s.ctx with is_peer_choked := false } }
  | .interested =>
    .ok { s with ctx := { s.ctx with is_peer_interested := true } }
  | .notInterested =>
    .ok { s with ctx := { s.ctx with is_peer_interested := false } }
  | .have' _ => .ok s
  | .bitfield b =>
    if ¬ s.is_bitfield_exchanged then
      .ok { s with is_bitfield_exchanged := true, bitfield := some b }
    else .ok s
  | .request _ _ _ => .ok s
  | .piece _ _ p =>
    .ok { s with downloadRecords := s.downloadRecords ++ [p.length] }
  | .cancel _ _ _ => .ok s

/-- Fold `on_message` over an inbound sequence, stopping at the first
error (the source loop propagates errors with `?`). -/
def ActiveSession.on_messages (s : ActiveSession) :
    List Message → Except PeerError ActiveSession
  | [] => .ok s
  | m :: rest =>
    match s.on_message m with
    | .ok s' => s'.on_messages rest
    | .error e => .error e

/-- First `Bitfield` payload of a message sequence, if any. -/
def firstBitfield : List Message → Option (List Bool)
  | [] => none
  | .bitfield b :: _ => some b
  | _ :: rest => firstBitfield rest

/-- Peer-facing session of `session.rs` (`struct Session`); the shared
`Torrent` behind the mutex is not modelled, since `receive_msg` touches
it only in the `Piece` arm and through no field read back here. -/
structure Session where
  peer_connection : PeerConnection
  request_queue : List BlockInfo
deriving DecidableEq, Repr

/-- `Session::receive_msg` of `session.rs`. `Bitfield` unconditionally
overwrites `peer_bitfield`; `Have` sets a bit (`List.set` is a no-op out
of bounds where the Rust `bitvec` indexing would abort — no theorem below
exercises that case); `Piece` only calls `torrent.add_block`. -/
def Session.receive_msg (s : Session) (m : Message) : Session :=
  match m with
  | .keepAlive => s
  | .interested =>
    { s with peer_connection :=
        { s.peer_connection with is_peer_interesting := true } }
  | .notInterested =>
    { s with peer_connection :=
        { s.peer_connection with is_peer_interesting := false } }
  | .choke =>
    { s with peer_connection :=
        { s.peer_connection with is_peer_choked := true } }
  | .unchoke =>
    { s with peer_connection :=
        { s.peer_connection with is_peer_choked := false } }
  | .have' pi =>
    { s with peer_connection :=
        { s.peer_connection with
            peer_bitfield := s.peer_connection.peer_bitfield.set pi true } }
  | .bitfield b =>
    { s with peer_connection :=
        { s.peer_connection with peer_bitfield := b } }
  | .request pi b l =>
    if ¬ s.peer_connection.is_choked then
      { s with request_queue := s.request_queue ++ [BlockInfo.new pi b l] }
    else s
  | .piece _ _ _ => s
  | .cancel pi b l =>
    let cancel_block := BlockInfo.new pi b l
    { s with request_queue := s.request_queue.filter (fun blk => ¬ blk.is_same_block cancel_block) }

/-- Torrent metadata (`metainfo.rs` `struct MetaInfo`), reduced to the
fields the sized computations read: the piece length, the optional
single-file length, and the optional list of per-file lengths. -/
structure MetaInfo where
  piece_length : Nat
  length : Option Nat
  files : Option (List Nat)
deriving DecidableEq, Repr

/-- `MetaInfo::total_bytes`; `none` models the `panic!` taken when both
`length` and `files` are absent. -/
def MetaInfo.total_bytes (m : MetaInfo) : Option Nat :=
  match m.length with
  | some l => some l
  | none =>
    match m.files with
    | some fs => some (fs.foldl (· + ·) 0)
    | none => none

/-- `Torrent::from_metainfo` of `torrent.rs`, reduced to the picker it
builds: the owner bitfield has `total_bytes / piece_length` bits
(`u32` floor division). -/
def Torrent.from_metainfo (m : MetaInfo) : Option PiecePicker :=
  m.total_bytes.map fun total_bytes =>
    PiecePicker.new (List.replicate (total_bytes / m.piece_length) false)
      total_bytes m.piece_length

/-- `Disk::handle_command`, `BitField` arm, of `disk.rs`: reply with an
all-zero bitfield of `total_bytes / piece_length` bits. -/
def Disk.bitfieldReply (m : MetaInfo) : Option (List Bool) :=
  m.total_bytes.map fun total_bytes =>
    List.replicate (total_bytes / m.piece_length) false

/-! Helper lemmas about the round-robin comparator. -/

/-- Transitivity of `cmpOptNat` in its non-`gt` (that is, `≤`) form. -/
theorem cmpOptNat_le_trans {x y z : Option Nat} (h1 : cmpOptNat x y ≠ .gt)
    (h2 : cmpOptNat y z ≠ .gt) : cmpOptNat x z ≠ .gt := by
  cases x <;> cases y <;> cases z <;>
    simp_all [cmpOptNat, Nat.compare_eq_gt]
  all_goals omega

/-- Reflexivity of `cmpOptNat` in its non-`gt` form. -/
theorem cmpOptNat_le_refl (x : Option Nat) : cmpOptNat x x ≠ .gt := by
  cases x <;> simp [cmpOptNat, Nat.compare_eq_gt]

/-- The round-robin comparator never answers `gt` on equal arguments. -/
theorem cmp_rr_le_refl (a : PeerConnection) :
    Choker.unchoke_compare_round_robin a a ≠ .gt := by
  cases ha : a.is_peer_interesting <;>
    simpa [Choker.unchoke_compare_round_robin, ha] using
      cmpOptNat_le_refl a.last_unchoked_at

/-- Transitivity of the round-robin comparator in its non-`gt` form. -/
theorem cmp_rr_le_trans {a b c : PeerConnection}
    (h1 : Choker.unchoke_compare_round_robin a b ≠ .gt)
    (h2 : Choker.unchoke_compare_round_robin b c ≠ .gt) :
    Choker.unchoke_compare_round_robin a c ≠ .gt := by
  cases ha : a.is_peer_interesting <;> cases hb : b.is_peer_interesting <;>
    cases hc : c.is_peer_interesting <;>
    simp_all [Choker.unchoke_compare_round_robin]
  all_goals exact cmpOptNat_le_trans h1 h2

/-- A peer that compares `≤` to an interested peer is itself interested. -/
theorem cmp_rr_interest {a b : PeerConnection}
    (h : Choker.unchoke_compare_round_robin a b ≠ .gt)
    (hb : b.is_peer_interesting = true) : a.is_peer_interesting = true := by
  cases ha : a.is_peer_interesting
  · exact absurd (by simp [Choker.unchoke_compare_round_robin, ha, hb]) h
  · rfl

/-- Between two interested peers, comparing `≤` is the timestamp order. -/
theorem cmp_rr_timestamps {a b : PeerConnection}
    (h : Choker.unchoke_compare_round_robin a b ≠ .gt)
    (ha : a.is_peer_interesting = true) (hb : b.is_peer_interesting = true) :
    cmpOptNat a.last_unchoked_at b.last_unchoked_at ≠ .gt := by
  simpa [Choker.unchoke_compare_round_robin, ha, hb] using h

/-- C1. The spec claims `decode(encode(m)) = Some(m)` for every message
variant. It fails on `Bitfield`: `Message::message_length` counts
`1 + bitfield.len()` where `bitfield.len()` is the BIT count, while the
payload holds only the raw BYTES, so for the 8-bit bitfield `0xFF` the
encoder emits six bytes under a length prefix of 9 and the decoder, still
waiting for 13 bytes, answers `Ok(None)` — never `Some(m)`. -/
theorem claim_C1_bitfield_roundtrip_fails :
    MessageCodec.encode (Message.bitfield (List.replicate 8 true)) =
      [0, 0, 0, 9, 5, 255] ∧
    MessageCodec.decode
      (MessageCodec.encode (Message.bitfield (List.replicate 8 true))) =
      MsgDecode.waiting ∧
    MsgDecode.waiting ≠
      MsgDecode.msg (Message.bitfield (List.replicate 8 true)) := by
  refine ⟨by decide, by decide, by decide⟩

/-- C2. The spec claims `Piece::verify` assembles a `piece.length`-byte
buffer from the complete blocks and hash-checks it. The code aborts
instead: the assembly target is `BytesMut::with_capacity(..)`, whose
length is zero, so the very first `data[begin..begin+len]` write indexes
out of range. The input below is a complete Unverified piece of length 1
with the single block `{begin: 0, data: [0x61]}` (the SHA-1 function is
irrelevant, the abort comes first). -/
theorem claim_C2_verify_aborts :
    (Piece.is_all_blocks_received
      ⟨0, List.replicate 20 0, .unVerified [⟨0, 0, [97]⟩], 1⟩) = true ∧
    Piece.verify (fun _ => List.replicate 20 0)
      ⟨0, List.replicate 20 0, .unVerified [⟨0, 0, [97]⟩], 1⟩ =
      VerifyResult.panics := by
  refine ⟨by decide, by decide⟩

/-- C3. The spec claims that after `PiecePicker::new` every not-yet-owned
piece contributes `ceil(piece_length / BLOCK_SIZE)` blocks covering
`[0, piece_length)`. The code uses floor division, so with
`piece_length = 1` (not a multiple of BLOCK_SIZE) the single missing
piece contributes no block at all, though the claim demands one block at
offset 0. -/
theorem claim_C3_picker_drops_tail_block :
    (PiecePicker.new [false] 1 1).missing_blocks = [] ∧
    (1 + (BLOCK_SIZE - 1)) / BLOCK_SIZE = 1 := by
  refine ⟨by decide, by decide⟩

/-- C4. The spec claims the last block of the last piece has length
`total_bytes mod BLOCK_SIZE`, or BLOCK_SIZE when that remainder is zero.
The code returns `total_length % BLOCK_SIZE` unconditionally, so with
`total = piece_length = BLOCK_SIZE` the single block of the single
missing piece is created with length 0 instead of BLOCK_SIZE. -/
theorem claim_C4_last_block_zero_length :
    (PiecePicker.new [false] 16384 16384).missing_blocks =
      [BlockInfo.new 0 0 0] ∧
    (BlockInfo.new 0 0 0).length ≠ BLOCK_SIZE := by
  refine ⟨by decide, by decide⟩

/-- C6. The spec claims entries older than the window are evicted before
any rate query, so 2W of silence drives `rate()` to 0. In the code
`cleanup_log` runs only inside `record`: with window 2 s, after recording
1000 bytes at t = 0 and then staying silent, `rate()` (which takes no
clock at all) still answers 500 at every later instant, including t ≥ 4;
only the eviction the claim describes (`cleanup_log` at query time, shown
in the second conjunct) would give 0. This also contradicts the module's
own test `test_transfer_rate_record_and_rate`. -/
theorem claim_C6_rate_skips_eviction :
    ThroughputRate.rate (ThroughputRate.record 0 1000 (ThroughputRate.new 2))
      = 500 ∧
    ThroughputRate.rate (ThroughputRate.cleanup_log 4
      (ThroughputRate.record 0 1000 (ThroughputRate.new 2))) = 0 ∧
    (500 : ℚ) ≠ 0 := by
  refine ⟨?_, ?_, by norm_num⟩ <;>
    norm_num [ThroughputRate.rate, ThroughputRate.record,
      ThroughputRate.cleanup_log, ThroughputRate.new, dropOldEntries]

/-- C9. The spec claims a valid ≥ 68-byte handshake decodes to the info
hash at bytes 28..48 and peer id at 48..68. After the un-consuming
`starts_with` check the code advances only the 8 reserved bytes, never
the 19 protocol-string bytes, so on the buffer produced by its own
encoder (info hash 20 × 0x01, peer id 20 × 0x02) it returns an "info
hash" made of protocol-string bytes and zeros. -/
theorem claim_C9_decode_misaligned :
    HandShakeCodec.decode
      (HandShakeCodec.encode (List.replicate 20 1) (List.replicate 20 2)) =
      HSDecode.msg (protocolString.drop 8 ++ List.replicate 8 0 ++ [1])
        (List.replicate 19 1 ++ [2]) ∧
    protocolString.drop 8 ++ List.replicate 8 0 ++ [1] ≠
      List.replicate 20 1 := by
  refine ⟨by decide, by decide⟩

/-- C5 (counterexample). The claim asserts that after `sort_by_unchoke`
the interested peers of the prefix carry non-decreasing
`last_unchoked_at` timestamps. The method only calls
`select_nth_unstable_by(min(upload_slot, n) - 1)`, which partitions
around that index and leaves the rest of the prefix in an unspecified
order. With three interested peers timestamped 3, 1, 2 and
`upload_slot = 3`, the output placing timestamps 2, 1, 3 satisfies the
entire `select_nth_unstable_by` postcondition yet its prefix is not
timestamp-sorted, so the claimed property does not hold of the code. -/
theorem claim_C5_counterexample :
    Choker.sort_by_unchoke_rel 3
      [⟨[], true, false, true, true, some 3⟩,
       ⟨[], true, false, true, true, some 1⟩,
       ⟨[], true, false, true, true, some 2⟩]
      [⟨[], true, false, true, true, some 2⟩,
       ⟨[], true, false, true, true, some 1⟩,
       ⟨[], true, false, true, true, some 3⟩] ∧
    ¬ chokerClaimPrefixOrdered
      (Choker.sort_by_unchoke_ret 3
        [⟨[], true, false, true, true, some 3⟩,
         ⟨[], true, false, true, true, some 1⟩,
         ⟨[], true, false, true, true, some 2⟩])
      [⟨[], true, false, true, true, some 2⟩,
       ⟨[], true, false, true, true, some 1⟩,
       ⟨[], true, false, true, true, some 3⟩] := by
  unfold Choker.sort_by_unchoke_rel SelectNthPost chokerClaimPrefixOrdered
    Choker.sort_by_unchoke_ret
  exact ⟨⟨by decide, by decide, by decide⟩, by decide⟩

/-- C5 (amended). What `sort_by_unchoke` does guarantee, for every output
the `select_nth_unstable_by` contract permits when at least one slot is
effective: the returned count is `min(upload_slot, n)`, the output is a
permutation of the input, and every peer of the prefix compares `≤`
(round-robin order) to every peer after it — hence an interested peer
past the prefix forces the whole prefix to be interested, and between
interested peers the prefix timestamps never exceed the suffix ones.
The internal order of the prefix itself is unspecified. -/
theorem claim_C5_amended_thm (upload_slot : Nat)
    (peers out : List PeerConnection)
    (hm : 1 ≤ min upload_slot peers.length)
    (hpost : Choker.sort_by_unchoke_rel upload_slot peers out) :
    Choker.sort_by_unchoke_ret upload_slot peers =
      min upload_slot peers.length ∧
    out.Perm peers ∧
    ∀ i ∈ List.range (min upload_slot peers.length),
      ∀ j ∈ List.range out.length, min upload_slot peers.length ≤ j →
        Choker.unchoke_compare_round_robin (out.getD i dfltPeer)
          (out.getD j dfltPeer) ≠ .gt ∧
        ((out.getD j dfltPeer).is_peer_interesting = true →
          (out.getD i dfltPeer).is_peer_interesting = true) ∧
        ((out.getD i dfltPeer).is_peer_interesting = true →
          (out.getD j dfltPeer).is_peer_interesting = true →
          cmpOptNat (out.getD i dfltPeer).last_unchoked_at
            (out.getD j dfltPeer).last_unchoked_at ≠ .gt) := by
  unfold Choker.sort_by_unchoke_rel SelectNthPost at hpost
  obtain ⟨hperm, hpre, hsuf⟩ := hpost
  refine ⟨rfl, hperm, ?_⟩
  intro i hi j hj hmj
  simp only [List.mem_range] at hi hj
  have hb1 : Choker.unchoke_compare_round_robin (out.getD i dfltPeer)
      (out.getD (min upload_slot peers.length - 1) dfltPeer) ≠ .gt := by
    rcases Nat.lt_or_ge i (min upload_slot peers.length - 1) with hlt | hge
    · exact hpre i (List.mem_range.mpr hlt)
    · have hieq : i = min upload_slot peers.length - 1 := by omega
      rw [hieq]; exact cmp_rr_le_refl _
  have hb2 : Choker.unchoke_compare_round_robin
      (out.getD (min upload_slot peers.length - 1) dfltPeer)
      (out.getD j dfltPeer) ≠ .gt :=
    hsuf j (List.mem_range.mpr hj) (by omega)
  have hij := cmp_rr_le_trans hb1 hb2
  exact ⟨hij, fun hbj => cmp_rr_interest hij hbj,
    fun hai hbj => cmp_rr_timestamps hij hai hbj⟩

/-- Witness for the amended C5 theorem at the one-peer list with one
slot, where the only permitted output is the list itself. -/
theorem claim_C5_amended_witness :
    (1 ≤ min 1 ([dfltPeer] : List PeerConnection).length) ∧
    Choker.sort_by_unchoke_rel 1 [dfltPeer] [dfltPeer] ∧
    (Choker.sort_by_unchoke_ret 1 [dfltPeer] =
      min 1 ([dfltPeer] : List PeerConnection).length ∧
    ([dfltPeer] : List PeerConnection).Perm [dfltPeer] ∧
    ∀ i ∈ List.range (min 1 ([dfltPeer] : List PeerConnection).length),
      ∀ j ∈ List.range ([dfltPeer] : List PeerConnection).length,
        min 1 ([dfltPeer] : List PeerConnection).length ≤ j →
        Choker.unchoke_compare_round_robin
          (([dfltPeer] : List PeerConnection).getD i dfltPeer)
          (([dfltPeer] : List PeerConnection).getD j dfltPeer) ≠ .gt ∧
        ((([dfltPeer] : List PeerConnection).getD j
            dfltPeer).is_peer_interesting = true →
          (([dfltPeer] : List PeerConnection).getD i
            dfltPeer).is_peer_interesting = true) ∧
        ((([dfltPeer] : List PeerConnection).getD i
            dfltPeer).is_peer_interesting = true →
          (([dfltPeer] : List PeerConnection).getD j
            dfltPeer).is_peer_interesting = true →
          cmpOptNat (([dfltPeer] : List PeerConnection).getD i
              dfltPeer).last_unchoked_at
            (([dfltPeer] : List PeerConnection).getD j
              dfltPeer).last_unchoked_at ≠ .gt)) := by
  have hpost : Choker.sort_by_unchoke_rel 1 [dfltPeer] [dfltPeer] := by
    unfold Choker.sort_by_unchoke_rel SelectNthPost
    exact ⟨by decide, by decide, by decide⟩
  exact ⟨by decide, hpost,
    claim_C5_amended_thm 1 [dfltPeer] [dfltPeer] (by decide) hpost⟩

/-- Invariant of `ActiveSession::on_messages`: processing never errors,
the stored bitfield ends as the first `Bitfield` payload of the sequence
(kept from before if the exchange already happened, kept as-is if none
arrives), and the exchanged flag records whether any arrived. -/
theorem on_messages_spec (msgs : List Message) : ∀ s : ActiveSession,
    ∃ s', s.on_messages msgs = .ok s' ∧
      s'.bitfield = (if s.is_bitfield_exchanged then s.bitfield else
        match firstBitfield msgs with
        | some b => some b
        | none => s.bitfield) ∧
      s'.is_bitfield_exchanged =
        (s.is_bitfield_exchanged || (firstBitfield msgs).isSome) := by
  induction msgs with
  | nil =>
    intro s
    refine ⟨s, rfl, ?_, by simp [firstBitfield]⟩
    cases s.is_bitfield_exchanged <;> simp [firstBitfield]
  | cons m rest ih =>
    intro s
    cases m with
    | bitfield b =>
      cases hx : s.is_bitfield_exchanged with
      | true =>
        obtain ⟨s', h1, h2, h3⟩ := ih s
        refine ⟨s', ?_, ?_, ?_⟩
        · simpa [ActiveSession.on_messages, ActiveSession.on_message, hx]
            using h1
        · simpa [firstBitfield, hx] using h2
        · simpa [firstBitfield, hx] using h3
      | false =>
        obtain ⟨s', h1, h2, h3⟩ :=
          ih { s with is_bitfield_exchanged := true, bitfield := some b }
        refine ⟨s', ?_, ?_, ?_⟩
        · simpa [ActiveSession.on_messages, ActiveSession.on_message, hx]
            using h1
        · simpa [firstBitfield, hx] using h2
        · simpa [firstBitfield, hx] using h3
    | keepAlive =>
      obtain ⟨s', h1, h2, h3⟩ := ih s
      exact ⟨s', by simpa [ActiveSession.on_messages,
        ActiveSession.on_message] using h1,
        by simpa [firstBitfield] using h2, by simpa [firstBitfield] using h3⟩
    | choke =>
      obtain ⟨s', h1, h2, h3⟩ :=
        ih { s with ctx := { s.ctx with is_peer_choked := true } }
      exact ⟨s', by simpa [ActiveSession.on_messages,
        ActiveSession.on_message] using h1,
        by simpa [firstBitfield] using h2, by simpa [firstBitfield] using h3⟩
    | unchoke =>
      obtain ⟨s', h1, h2, h3⟩ :=
        ih { s with ctx := { s.ctx with is_peer_choked := false } }
      exact ⟨s', by simpa [ActiveSession.on_messages,
        ActiveSession.on_message] using h1,
        by simpa [firstBitfield] using h2, by simpa [firstBitfield] using h3⟩
    | interested =>
      obtain ⟨s', h1, h2, h3⟩ :=
        ih { s with ctx := { s.ctx with is_peer_interested := true } }
      exact ⟨s', by simpa [ActiveSession.on_messages,
        ActiveSession.on_message] using h1,
        by simpa [firstBitfield] using h2, by simpa [firstBitfield] using h3⟩
    | notInterested =>
      obtain ⟨s', h1, h2, h3⟩ :=
        ih { s with ctx := { s.ctx with is_peer_interested := false } }
      exact ⟨s', by simpa [ActiveSession.on_messages,
        ActiveSession.on_message] using h1,
        by simpa [firstBitfield] using h2, by simpa [firstBitfield] using h3⟩
    | have' pi =>
      obtain ⟨s', h1, h2, h3⟩ := ih s
      exact ⟨s', by simpa [ActiveSession.on_messages,
        ActiveSession.on_message] using h1,
        by simpa [firstBitfield] using h2, by simpa [firstBitfield] using h3⟩
    | request pi b l =>
      obtain ⟨s', h1, h2, h3⟩ := ih s
      exact ⟨s', by simpa [ActiveSession.on_messages,
        ActiveSession.on_message] using h1,
        by simpa [firstBitfield] using h2, by simpa [firstBitfield] using h3⟩
    | piece pi b p =>
      obtain ⟨s', h1, h2, h3⟩ :=
        ih { s with downloadRecords := s.downloadRecords ++ [p.length] }
      exact ⟨s', by simpa [ActiveSession.on_messages,
        ActiveSession.on_message] using h1,
        by simpa [firstBitfield] using h2, by simpa [firstBitfield] using h3⟩
    | cancel pi b l =>
      obtain ⟨s', h1, h2, h3⟩ := ih s
      exact ⟨s', by simpa [ActiveSession.on_messages,
        ActiveSession.on_message] using h1,
        by simpa [firstBitfield] using h2, by simpa [firstBitfield] using h3⟩

/-- C7 (counterexample). The claim asserts that after any sequence with
two `Bitfield` messages the stored `peer_bitfield` equals the FIRST one.
`Session::receive_msg` of `session.rs` — the function owning the
`peer_bitfield` field the claim names — overwrites it unconditionally:
after `Bitfield [true]` then `Bitfield [false]` it holds `[false]`, not
the first payload `[true]`. -/
theorem claim_C7_counterexample :
    (((⟨PeerConnection.new 1, []⟩ : Session).receive_msg
        (.bitfield [true])).receive_msg
        (.bitfield [false])).peer_connection.peer_bitfield = [false] ∧
    ([false] : List Bool) ≠ [true] := by
  refine ⟨by decide, by decide⟩

/-- C7 (amended). The duplicate-Bitfield handling differs between the two
receive paths: `ActiveSession::on_message` (peer.rs) accepts the first
`Bitfield` of any inbound sequence, ignores later ones and raises no
error — its stored bitfield equals the first payload of the sequence —
while `Session::receive_msg` (session.rs) also raises no error but keeps
the LAST `Bitfield` received. -/
theorem claim_C7_amended_thm :
    (∀ msgs : List Message, ∃ s',
      ActiveSession.new.on_messages msgs = .ok s' ∧
      s'.bitfield = firstBitfield msgs) ∧
    (∀ (s : Session) (b1 b2 : List Bool),
      ((s.receive_msg (.bitfield b1)).receive_msg
        (.bitfield b2)).peer_connection.peer_bitfield = b2) := by
  constructor
  · intro msgs
    obtain ⟨s', h1, h2, _⟩ := on_messages_spec msgs ActiveSession.new
    refine ⟨s', h1, ?_⟩
    rw [h2]
    cases hfb : firstBitfield msgs <;> simp [ActiveSession.new]
  · intro s b1 b2
    simp [Session.receive_msg]

/-- C8 (counterexample). The claim asserts the piece count used for the
owner bitfields is `ceil(total_bytes / piece_length)`. Both
`Torrent::from_metainfo` and the disk `BitField` arm compute
`total_bytes / piece_length` with truncating integer division: a
single-file metainfo with `length = 3`, `piece_length = 2` yields a
1-bit bitfield in both places, while the ceiling is 2. -/
theorem claim_C8_counterexample :
    (Torrent.from_metainfo ⟨2, some 3, none⟩).map
      (fun p => p.own_bitfield.length) = some 1 ∧
    (Disk.bitfieldReply ⟨2, some 3, none⟩).map List.length = some 1 ∧
    (3 + (2 - 1)) / 2 = 2 ∧
    (1 : Nat) ≠ 2 := by
  refine ⟨by decide, by decide, by decide, by decide⟩

/-- C8 (amended). For every metainfo whose `total_bytes` is defined, both
owner bitfields have `total_bytes / piece_length` bits — floor division,
which agrees with the claimed ceiling exactly when `piece_length` divides
`total_bytes`; otherwise the final partial piece is dropped. -/
theorem claim_C8_amended_thm (m : MetaInfo) (tb : Nat)
    (htb : m.total_bytes = some tb) :
    (∃ p, Torrent.from_metainfo m = some p ∧
      p.own_bitfield.length = tb / m.piece_length) ∧
    Disk.bitfieldReply m =
      some (List.replicate (tb / m.piece_length) false) := by
  refine ⟨⟨PiecePicker.new (List.replicate (tb / m.piece_length) false)
    tb m.piece_length, ?_, ?_⟩, ?_⟩
  · simp [Torrent.from_metainfo, htb]
  · simp [PiecePicker.new]
  · simp [Disk.bitfieldReply, htb]

/-- Witness for the amended C8 theorem at a single-file metainfo with
four bytes and two-byte pieces. -/
theorem claim_C8_amended_witness :
    (⟨2, some 4, none⟩ : MetaInfo).total_bytes = some 4 ∧
    ((∃ p, Torrent.from_metainfo ⟨2, some 4, none⟩ = some p ∧
      p.own_bitfield.length = 4 / (⟨2, some 4, none⟩ : MetaInfo).piece_length) ∧
    Disk.bitfieldReply ⟨2, some 4, none⟩ =
      some (List.replicate
        (4 / (⟨2, some 4, none⟩ : MetaInfo).piece_length) false)) :=
  ⟨by decide, claim_C8_amended_thm ⟨2, some 4, none⟩ 4 (by decide)⟩

/-- C10. `Choker::sort_by_unchoke` cannot abort when the peer vector is
non-empty and `upload_slot ≥ 1`: the effective slot count
`min(upload_slot, n)` is then at least 1, so the `usize` subtraction
`upload_slot - 1` cannot underflow and the partition index
`min(upload_slot, n) - 1` stays below `n`. -/
theorem claim_C10_sort_no_abort (upload_slot : Nat)
    (peers : List PeerConnection) (hne : peers ≠ [])
    (hs : 1 ≤ upload_slot) :
    ¬ Choker.sort_by_unchoke_aborts upload_slot peers := by
  have hlen : 0 < peers.length := List.length_pos.mpr hne
  have h1 : 1 ≤ min upload_slot peers.length := le_min hs hlen
  have h2 : min upload_slot peers.length ≤ peers.length :=
    Nat.min_le_right _ _
  unfold Choker.sort_by_unchoke_aborts
  omega

/-- Witness for C10 at one peer and one slot. -/
theorem claim_C10_witness :
    ([dfltPeer] : List PeerConnection) ≠ [] ∧ 1 ≤ 1 ∧
    ¬ Choker.sort_by_unchoke_aborts 1 [dfltPeer] :=
  ⟨by decide, by decide, claim_C10_sort_no_abort 1 [dfltPeer]
    (by decide) (by decide)⟩

end BitDrift
